import Mathlib

/-!
A shallow embedding of the findocgpt core modules (`core/strategy.py`,
`core/anomaly.py`, `core/forecast.py`, `core/sentiment.py`, `core/qna.py`)
and proofs about them.

Modelling conventions:
- Python floats are modelled as real numbers (`ℝ`).
- Dates are modelled as integers counting days, so "the next calendar day"
  is `+ 1`.
- A pandas cell that `pd.to_numeric(errors="coerce")` /
  `pd.to_datetime(errors="coerce")` would turn into `NaN`/`NaT` is modelled
  as `Option.none`; `pct_change` followed by `.dropna()` is modelled with
  no forward-filling (`fill_method=None`), so a return exists exactly for
  adjacent pairs of present values.
- Python `ValueError`s are modelled with `Except String`, carrying the
  exact message string raised by the source.
- The NLTK sentence splitter and the VADER polarity model are external
  collaborators; they are passed as function parameters.
-/

/- ------------------------------------------------------------------
core/strategy.py
------------------------------------------------------------------ -/

/-- Embeds the `reasons` list assembled by `investment_strategy` in
`core/strategy.py`: it starts empty, appends the sentiment reason, then
appends the anomaly reason. -/
noncomputable def strategy_reasons (sentiment_score : ℝ) (anomaly_level : String) :
    List String :=
  let reasons : List String := []
  let reasons := reasons ++
    [if 0.2 < sentiment_score then "Positive sentiment"
     else if sentiment_score < -0.2 then "Negative sentiment"
     else "Neutral sentiment"]
  let reasons := reasons ++
    [if anomaly_level = "Severe" then "Severe anomalies detected"
     else if anomaly_level = "Mild" then "Mild anomalies detected"
     else "No anomalies detected"]
  reasons

/-- Embeds `investment_strategy` from `core/strategy.py`.  The decision is
computed by two ordered gates (BUY gate, then SELL gate, else HOLD) and is
returned together with the `"; "`-join of the two reasons. -/
noncomputable def investment_strategy (forecast_change sentiment_score : ℝ)
    (anomaly_level : String) : String × String :=
  let reasons := strategy_reasons sentiment_score anomaly_level
  let decision :=
    if 2 < forecast_change ∧ 0.1 < sentiment_score ∧ anomaly_level = "None" then "BUY"
    else if forecast_change < -2 ∨ sentiment_score < -0.1 ∨ anomaly_level = "Severe" then "SELL"
    else "HOLD"
  (decision, String.intercalate "; " reasons)

/- ------------------------------------------------------------------
core/anomaly.py
------------------------------------------------------------------ -/

/-- Day-over-day fractional returns of a column that may contain missing
values: embeds `pd.Series.pct_change().dropna()` (no forward filling), so a
return `y / x - 1` is produced exactly for adjacent present pairs `x, y`. -/
noncomputable def pctChangeOpt : List (Option ℝ) → List ℝ
  | [] => []
  | [_] => []
  | a :: b :: rest =>
    (match a, b with
     | some x, some y => [y / x - 1]
     | _, _ => []) ++ pctChangeOpt (b :: rest)

/-- Embeds `pd.Series.mean()`: the sum divided by the length. -/
noncomputable def listMean (l : List ℝ) : ℝ := l.sum / l.length

/-- Embeds `pd.Series.std(ddof=1)`: the Bessel-corrected sample standard
deviation, the square root of the sum of squared deviations divided by
`n - 1`. -/
noncomputable def sampleStd (l : List ℝ) : ℝ :=
  Real.sqrt ((l.map (fun x => (x - listMean l) ^ 2)).sum / ((l.length : ℝ) - 1))

/-- Embeds `np.max` over a list of non-negative reals (the list of absolute
z-scores): a fold of `max` with base `0`. -/
noncomputable def listMax (l : List ℝ) : ℝ := l.foldr max 0

/-- Embeds `anomaly_from_prices` from `core/anomaly.py`.  The `Close`
column is the already-coerced numeric column (`none` standing for a value
`pd.to_numeric(errors="coerce")` could not parse).  Returns the label and
the stats record `(n, max_z)`. -/
noncomputable def anomaly_from_prices (close : List (Option ℝ))
    (mild : ℝ := 2.0) (severe : ℝ := 3.0) : String × ℕ × ℝ :=
  let rets := pctChangeOpt close
  if rets.length < 5 then ("None", rets.length, 0.0)
  else
    let m := listMean rets
    let sd := sampleStd rets
    let z := rets.map (fun r => (r - m) / (sd + 1e-9))
    let max_abs_z := listMax (z.map (fun x => |x|))
    let label :=
      if severe ≤ max_abs_z then "Severe"
      else if mild ≤ max_abs_z then "Mild"
      else "None"
    (label, rets.length, max_abs_z)

/- ------------------------------------------------------------------
core/forecast.py
------------------------------------------------------------------ -/

/-- Day-over-day fractional returns of an all-numeric price list: embeds
`pd.Series(prices).pct_change().dropna()` for a fully numeric series (the
first `NaN` row is dropped, leaving `n - 1` returns). -/
noncomputable def pctChange (l : List ℝ) : List ℝ := List.zipWith (fun a b => b / a - 1) l l.tail

/-- Embeds `forecast_prices` from `core/forecast.py`.  `hist` is the
cleaned `(Date, Close)` table; dates are integer day numbers.  Mirrors the
source checks in order: non-positive horizon, then empty return series;
otherwise projects `horizon_days` consecutive days starting the day after
the last date, with predicted price `last_price * (1 + avg_ret) ^ (t + 1)`
at 0-based row `t`. -/
noncomputable def forecast_prices (hist : List (ℤ × ℝ)) (horizon_days : ℤ) :
    Except String (List (ℤ × ℝ)) :=
  if horizon_days ≤ 0 then .error "horizon_days must be > 0."
  else
    let prices := hist.map Prod.snd
    let rets := pctChange prices
    if rets.length = 0 then .error "Return series is empty after cleaning."
    else
      let avg_ret := listMean rets
      let last_price := prices.getLastD 0
      let steps := horizon_days.toNat
      let last_date := (hist.map Prod.fst).getLastD 0
      .ok ((List.range steps).map
        (fun (t : ℕ) => (last_date + 1 + (t : ℤ), last_price * (1 + avg_ret) ^ (t + 1))))

/-- A raw tabular cell, recording what date / numeric parsing with
`errors="coerce"` would yield for it (`none` = unparsable, hence `NaN`). -/
structure Cell where
  asDate : Option ℤ
  asNum : Option ℝ

/-- A raw tabular frame as read by `pd.read_csv`: named columns and rows of
cells aligned with the column list. -/
structure Frame where
  cols : List String
  rows : List (List Cell)

/-- The fixed candidate date column names of `clean_price_csv`. -/
def date_cols : List String := ["Date", "date", "timestamp", "Datetime", "datetime"]

/-- The fixed candidate close/price column names of `clean_price_csv`. -/
def close_cols : List String := ["Close", "Adj Close", "close", "adj_close", "Price", "price"]

/-- Embeds `drop_duplicates(subset=["Date"])` with pandas' default
`keep="first"`: drops any row whose date was already seen. -/
def dedupDates (seen : List ℤ) : List (ℤ × ℝ) → List (ℤ × ℝ)
  | [] => []
  | p :: rest =>
    if p.1 ∈ seen then dedupDates seen rest
    else p :: dedupDates (p.1 :: seen) rest

/-- Comparison by date, used to embed `sort_values("Date")`. -/
def dateLe (p q : ℤ × ℝ) : Prop := p.1 ≤ q.1

instance : DecidableRel dateLe := fun p q => inferInstanceAs (Decidable (p.1 ≤ q.1))

instance : IsTotal (ℤ × ℝ) dateLe := ⟨fun p q => le_total p.1 q.1⟩

instance : IsTrans (ℤ × ℝ) dateLe := ⟨fun _ _ _ => le_trans⟩

/-- The coercion step of `clean_price_csv`: project each row to its date
and close cells (by the positions of the chosen column names) as parsed,
possibly-missing values. -/
def parsed_pairs (df : Frame) (date_col close_col : String) :
    List (Option ℤ × Option ℝ) :=
  df.rows.map
    (fun r => ((r.getD (df.cols.indexOf date_col) ⟨none, none⟩).asDate,
               (r.getD (df.cols.indexOf close_col) ⟨none, none⟩).asNum))

/-- The `dropna` step of `clean_price_csv`: keep exactly the rows whose
date and close both parsed. -/
def dropped_rows (df : Frame) (date_col close_col : String) : List (ℤ × ℝ) :=
  (parsed_pairs df date_col close_col).filterMap
    (fun p => match p with
      | (some d, some v) => some (d, v)
      | _ => none)

/-- The dedup-then-sort step of `clean_price_csv`: drop duplicate dates
keeping the first occurrence, then sort ascending by date. -/
def cleaned_rows (df : Frame) (date_col close_col : String) : List (ℤ × ℝ) :=
  List.insertionSort dateLe (dedupDates [] (dropped_rows df date_col close_col))

/-- Embeds `clean_price_csv` from `core/forecast.py`: pick the first
matching date and close column names, coerce cells (already recorded in
`Cell`), drop rows with a missing field, drop duplicate dates keeping the
first, sort ascending by date, and require at least 10 remaining rows. -/
def clean_price_csv (df : Frame) : Except String (List (ℤ × ℝ)) :=
  match date_cols.find? (fun c => df.cols.contains c),
        close_cols.find? (fun c => df.cols.contains c) with
  | some date_col, some close_col =>
    let out := cleaned_rows df date_col close_col
    if out.length < 10 then
      .error "CSV has fewer than 10 clean rows after parsing. Add more history."
    else .ok out
  | _, _ =>
    .error "CSV must contain a date column (e.g., Date) and a close/price column (e.g., Close)."

/-- A concrete 12-row frame with columns `["timestamp", "price"]`, used to
exercise the normalizer on the spec scenario. -/
def sample_frame : Frame :=
  ⟨["timestamp", "price"],
   (List.range 12).map (fun k => [⟨some (k : ℤ), none⟩, ⟨none, some (k : ℝ)⟩])⟩

/- ------------------------------------------------------------------
core/sentiment.py
------------------------------------------------------------------ -/

/-- Embeds `split_sentences` from `core/qna.py` (the same expression is
inlined in `rolling_sentiment`): strip each sentence produced by the
external splitter and keep the non-empty ones. -/
def split_sentences (sent_tok : String → List String) (text : String) : List String :=
  ((sent_tok text).map String.trim).filter (fun s => s ≠ "")

/-- Embeds `rolling_sentiment` from `core/sentiment.py`.  The NLTK sentence
splitter `sent_tokenize` and the VADER compound score are external
collaborators passed as `sent_tok` and `polarity`.  The loop
`for i in range(0, len(sents), window_sentences)` is embedded as the list
of multiples of `window_sentences` below `len sents` (which is exactly the
Python range for a positive step; Python raises on step 0, which is outside
the contract). -/
def rolling_sentiment (sent_tok : String → List String) (polarity : String → ℝ)
    (text : String) (window_sentences : ℕ) : List (ℕ × ℝ) :=
  let sents := split_sentences sent_tok text
  let starts := (List.range ((sents.length + window_sentences - 1) / window_sentences)).map
    (fun j => j * window_sentences)
  starts.filterMap (fun i =>
    let chunk := " ".intercalate ((sents.drop i).take window_sentences)
    if chunk = "" then none
    else some (i / window_sentences, polarity chunk))

/- ------------------------------------------------------------------
core/qna.py
------------------------------------------------------------------ -/

/-- A character the sklearn default token pattern `\w\w+` counts as a word
character. -/
def isWordChar (c : Char) : Bool := c.isAlphanum || c = '_'

/-- Maximal runs of word characters of a character list (tail-recursive
with an accumulator holding the current run reversed). -/
def wordRuns (acc : List Char) : List Char → List (List Char)
  | [] => if acc.isEmpty then [] else [acc.reverse]
  | c :: cs =>
    if isWordChar c then wordRuns (c :: acc) cs
    else if acc.isEmpty then wordRuns [] cs
    else acc.reverse :: wordRuns [] cs

/-- The sklearn `TfidfVectorizer` default analyzer (lowercase, then the
maximal word-character runs of length at least 2, per the token pattern
`\w\w+`) restricted to ASCII text: Lean's `Char.toLower` and
`Char.isAlphanum` are ASCII classifiers while sklearn's pattern is
Unicode-aware, and the two agree exactly on ASCII strings — the only
strings this function is applied to below.  The vectorizer pipeline is
therefore parameterized over the analyzer, and this function instantiates
it only at concrete ASCII corpora. -/
def tokenize (s : String) : List String :=
  ((wordRuns [] (s.toList.map Char.toLower)).filter (fun t => 2 ≤ t.length)).map String.mk

/-- The fitted vocabulary: every token the analyzer `tok` extracts from the
fitted corpus, once.  (sklearn additionally sorts the vocabulary
alphabetically; the order of enumeration does not affect any dot product or
norm below.)  `TfidfVectorizer().fit` raises its empty-vocabulary
`ValueError` exactly when this list is empty. -/
def tfidf_vocab (tok : String → List String) (corpus : List String) : List String :=
  (corpus.flatMap tok).dedup

/-- Document frequency of token `t` over the fitted corpus. -/
def df_count (tok : String → List String) (corpus : List String) (t : String) : ℕ :=
  corpus.countP (fun d => (tok d).contains t)

/-- Embeds sklearn's smoothed inverse document frequency
`ln((1 + n) / (1 + df)) + 1`. -/
noncomputable def idf (tok : String → List String) (corpus : List String) (t : String) : ℝ :=
  Real.log (((corpus.length : ℝ) + 1) / ((df_count tok corpus t : ℝ) + 1)) + 1

/-- The un-normalized tf-idf weight of token `t` in document `doc`: raw
term count times smoothed idf. -/
noncomputable def tfidf_weight (tok : String → List String) (corpus : List String)
    (doc t : String) : ℝ :=
  ((tok doc).count t : ℝ) * idf tok corpus t

/-- The Euclidean norm of a document's tf-idf vector over the vocabulary. -/
noncomputable def tfidf_norm (tok : String → List String) (corpus : List String)
    (doc : String) : ℝ :=
  Real.sqrt (((tfidf_vocab tok corpus).map (fun t => tfidf_weight tok corpus doc t ^ 2)).sum)

/-- Embeds `cosine_similarity` of the tf-idf vectors of two documents:
the dot product over the vocabulary divided by the product of norms.
(`TfidfVectorizer` l2-normalizes each row and `cosine_similarity`
re-normalizes, which is the same value; a document with no tokens has a
zero vector, and division by zero yields 0, as sklearn does.) -/
noncomputable def cosine_sim (tok : String → List String) (corpus : List String)
    (a b : String) : ℝ :=
  (((tfidf_vocab tok corpus).map
      (fun t => tfidf_weight tok corpus a t * tfidf_weight tok corpus b t)).sum) /
    (tfidf_norm tok corpus a * tfidf_norm tok corpus b)

/-- The ascending order numpy's small-array sort establishes on positions
of `sims`: below its 16-element introsort threshold numpy runs a stable
insertion sort, so score ties are broken by ascending position.  For larger
arrays numpy's default quicksort gives no tie guarantee, which is why the
general theorems below constrain `argsort` only by `argsort_ok`. -/
def arg_rel (sims : List ℝ) (i j : ℕ) : Prop :=
  sims.getD i 0 < sims.getD j 0 ∨ (sims.getD i 0 = sims.getD j 0 ∧ i ≤ j)

noncomputable instance arg_rel_dec (sims : List ℝ) : DecidableRel (arg_rel sims) :=
  fun i j => by unfold arg_rel; infer_instance

instance arg_rel_total (sims : List ℝ) : IsTotal ℕ (arg_rel sims) where
  total i j := by
    rcases lt_trichotomy (sims.getD i 0) (sims.getD j 0) with h | h | h
    · exact Or.inl (Or.inl h)
    · rcases Nat.le_total i j with hij | hij
      · exact Or.inl (Or.inr ⟨h, hij⟩)
      · exact Or.inr (Or.inr ⟨h.symm, hij⟩)
    · exact Or.inr (Or.inl h)

instance arg_rel_trans (sims : List ℝ) : IsTrans ℕ (arg_rel sims) where
  trans i j k hij hjk := by
    rcases hij with h1 | ⟨e1, l1⟩
    · rcases hjk with h2 | ⟨e2, _⟩
      · exact Or.inl (h1.trans h2)
      · exact Or.inl (e2 ▸ h1)
    · rcases hjk with h2 | ⟨e2, l2⟩
      · exact Or.inl (e1 ▸ h2)
      · exact Or.inr ⟨e1.trans e2, l1.trans l2⟩

/-- The documented contract of `np.argsort` for every sort kind: the
result is a permutation of the positions of `sims` that puts the values in
ascending order.  The order of equal values is implementation-defined
(numpy's default quicksort is not stable), so nothing more is assumed. -/
def argsort_ok (sims : List ℝ) (idxs : List ℕ) : Prop :=
  idxs.Perm (List.range sims.length) ∧
    idxs.Pairwise (fun i j => sims.getD i 0 ≤ sims.getD j 0)

/-- `np.argsort` as it behaves on arrays below numpy's 16-element introsort
threshold, where it runs a stable insertion sort: positions sorted by
ascending score with ties by ascending position.  Used only at concrete
small inputs (the counterexample sorts 2 elements). -/
noncomputable def np_argsort_small (sims : List ℝ) : List ℕ :=
  List.insertionSort (arg_rel sims) (List.range sims.length)

/-- Embeds `answer_question` from `core/qna.py`: empty sentence list short
circuits to `[]` before the vectorizer is built; fitting on
`sentences + [question]` raises sklearn's empty-vocabulary `ValueError`
when the analyzer extracts no token from any fitted document; otherwise
every sentence is scored by cosine similarity to the question and the
`(score, sentence)` pairs selected by `sims.argsort()[::-1][:top_k]` are
returned in selection order.  The analyzer `tok` and the library sort
`argsort` are external collaborators: `argsort` is any function meeting
numpy's documented contract (`argsort_ok`), since the order of equal
scores under the default unstable quicksort is implementation-defined. -/
noncomputable def answer_question (tok : String → List String)
    (argsort : List ℝ → List ℕ) (question : String) (sentences : List String)
    (top_k : ℕ := 3) : Except String (List (ℝ × String)) :=
  if sentences.isEmpty then .ok []
  else if tfidf_vocab tok (sentences ++ [question]) = [] then
    .error "empty vocabulary; perhaps the documents only contain stop words"
  else
    let corpus := sentences ++ [question]
    let sims := sentences.map (fun s => cosine_sim tok corpus question s)
    .ok (((argsort sims).reverse.take top_k).map
      (fun i => (sims.getD i 0, sentences.getD i "")))

/- ------------------------------------------------------------------
Helper lemmas
------------------------------------------------------------------ -/

theorem pctChangeOpt_length :
    ∀ close : List (Option ℝ),
      (pctChangeOpt close).length
        = (close.zip close.tail).countP (fun p => p.1.isSome && p.2.isSome)
  | [] => rfl
  | [a] => by cases a <;> rfl
  | a :: b :: rest => by
    have ih := pctChangeOpt_length (b :: rest)
    cases a <;> cases b <;>
      simp [pctChangeOpt, List.countP_cons, ih]

theorem listMean_const {l : List ℝ} {c : ℝ} (hne : l ≠ []) (h : ∀ x ∈ l, x = c) :
    listMean l = c := by
  unfold listMean
  rw [List.sum_eq_card_nsmul l c h, nsmul_eq_mul]
  have hl : (l.length : ℝ) ≠ 0 :=
    Nat.cast_ne_zero.mpr (List.length_pos.mpr hne).ne'
  field_simp

theorem listMax_zeros {l : List ℝ} (h : ∀ x ∈ l, x = 0) : listMax l = 0 := by
  unfold listMax
  induction l with
  | nil => rfl
  | cons a t ih =>
    simp only [List.foldr_cons]
    rw [h a (List.mem_cons_self a t), ih (fun x hx => h x (List.mem_cons_of_mem a hx))]
    simp

/- ------------------------------------------------------------------
Claim theorems: decision engine
------------------------------------------------------------------ -/

/-- C1: for every real `forecast_change`, real `sentiment_score` and any
anomaly label, the decision is `"BUY"` iff `forecast_change > 2` and
`sentiment_score > 0.1` and the label is `"None"`; otherwise `"SELL"` iff
`forecast_change < -2` or `sentiment_score < -0.1` or the label is
`"Severe"`; otherwise `"HOLD"` — the two gates evaluated in that order,
first match winning. -/
theorem investment_strategy_decision_cases (fc s : ℝ) (lbl : String) :
    ((investment_strategy fc s lbl).1 = "BUY" ↔
      (2 < fc ∧ 0.1 < s ∧ lbl = "None")) ∧
    ((investment_strategy fc s lbl).1 = "SELL" ↔
      (¬(2 < fc ∧ 0.1 < s ∧ lbl = "None") ∧ (fc < -2 ∨ s < -0.1 ∨ lbl = "Severe"))) ∧
    ((investment_strategy fc s lbl).1 = "HOLD" ↔
      (¬(2 < fc ∧ 0.1 < s ∧ lbl = "None") ∧ ¬(fc < -2 ∨ s < -0.1 ∨ lbl = "Severe"))) ∧
    investment_strategy (-5) 0 "None" =
      ("SELL", "Neutral sentiment; No anomalies detected") := by
  refine ⟨?_, ?_, ?_, ?_⟩
  · unfold investment_strategy
    by_cases h1 : 2 < fc ∧ 0.1 < s ∧ lbl = "None" <;>
      by_cases h2 : fc < -2 ∨ s < -0.1 ∨ lbl = "Severe" <;> simp [h1, h2]
  · unfold investment_strategy
    by_cases h1 : 2 < fc ∧ 0.1 < s ∧ lbl = "None" <;>
      by_cases h2 : fc < -2 ∨ s < -0.1 ∨ lbl = "Severe" <;> simp [h1, h2]
  · unfold investment_strategy
    by_cases h1 : 2 < fc ∧ 0.1 < s ∧ lbl = "None" <;>
      by_cases h2 : fc < -2 ∨ s < -0.1 ∨ lbl = "Severe" <;> simp [h1, h2]
  · unfold investment_strategy strategy_reasons
    norm_num
    decide

/-- C4: the reasons are always exactly two, in order: first the sentiment
reason (`"Positive sentiment"` iff `sentiment_score > 0.2`,
`"Negative sentiment"` iff `sentiment_score < -0.2`, else
`"Neutral sentiment"`), then the anomaly reason matching the label; the
returned rationale is their `"; "`-join, and
`decide(3.0, 0.5, "None") = ("BUY", "Positive sentiment; No anomalies detected")`. -/
theorem investment_strategy_reasons_spec (fc s : ℝ) (lbl : String) :
    strategy_reasons s lbl =
      [if 0.2 < s then "Positive sentiment"
       else if s < -0.2 then "Negative sentiment"
       else "Neutral sentiment",
       if lbl = "Severe" then "Severe anomalies detected"
       else if lbl = "Mild" then "Mild anomalies detected"
       else "No anomalies detected"] ∧
    (strategy_reasons s lbl).length = 2 ∧
    (investment_strategy fc s lbl).2 = String.intercalate "; " (strategy_reasons s lbl) ∧
    investment_strategy 3 0.5 "None" =
      ("BUY", "Positive sentiment; No anomalies detected") := by
  refine ⟨rfl, rfl, rfl, ?_⟩
  unfold investment_strategy strategy_reasons
  norm_num
  decide

/- ------------------------------------------------------------------
Claim theorems: anomaly detector
------------------------------------------------------------------ -/

/-- C5: whenever the return series has fewer than 5 elements, the detector
returns the label `"None"` with stats `(return count, 0.0)`, for any
thresholds and regardless of the price values — a defined outcome, not an
error. -/
theorem anomaly_from_prices_insufficient (close : List (Option ℝ)) (mild severe : ℝ)
    (h : (pctChangeOpt close).length < 5) :
    anomaly_from_prices close mild severe = ("None", (pctChangeOpt close).length, 0.0) := by
  unfold anomaly_from_prices
  simp [h]

theorem anomaly_from_prices_insufficient_witness :
    (pctChangeOpt [some (1 : ℝ), some 2, some 4]).length < 5 ∧
    anomaly_from_prices [some (1 : ℝ), some 2, some 4] 2.0 3.0
      = ("None", (pctChangeOpt [some (1 : ℝ), some 2, some 4]).length, 0.0) :=
  ⟨by norm_num [pctChangeOpt],
   anomaly_from_prices_insufficient [some (1 : ℝ), some 2, some 4] 2.0 3.0
     (by norm_num [pctChangeOpt])⟩

/-- C6: with at least 5 returns, the detector z-scores the returns using
the sample mean and the Bessel-corrected sample standard deviation with an
additive `1e-9` in the denominator, takes the maximum absolute z-score,
and labels `"Severe"` when it is at least the severe threshold, else
`"Mild"` when at least the mild threshold, else `"None"`; the stats record
is `(return count, max abs z)`. -/
theorem anomaly_from_prices_zscore (close : List (Option ℝ)) (mild severe : ℝ)
    (h : 5 ≤ (pctChangeOpt close).length) :
    anomaly_from_prices close mild severe =
      (let rets := pctChangeOpt close
       let m := rets.sum / (rets.length : ℝ)
       let sd := Real.sqrt ((rets.map (fun r => (r - m) ^ 2)).sum / ((rets.length : ℝ) - 1))
       let maxz := (rets.map (fun r => |(r - m) / (sd + 1e-9)|)).foldr max 0
       (if severe ≤ maxz then "Severe" else if mild ≤ maxz then "Mild" else "None",
        rets.length, maxz)) := by
  unfold anomaly_from_prices listMean sampleStd listMax
  rw [if_neg (by omega)]
  simp [List.map_map, Function.comp_def, listMean]

theorem anomaly_from_prices_zscore_witness :
    5 ≤ (pctChangeOpt [some (1 : ℝ), some 2, some 1, some 2, some 1, some 2]).length ∧
    anomaly_from_prices [some (1 : ℝ), some 2, some 1, some 2, some 1, some 2] 2.0 3.0 =
      (let rets := pctChangeOpt [some (1 : ℝ), some 2, some 1, some 2, some 1, some 2]
       let m := rets.sum / (rets.length : ℝ)
       let sd := Real.sqrt ((rets.map (fun r => (r - m) ^ 2)).sum / ((rets.length : ℝ) - 1))
       let maxz := (rets.map (fun r => |(r - m) / (sd + 1e-9)|)).foldr max 0
       (if (3.0 : ℝ) ≤ maxz then "Severe" else if (2.0 : ℝ) ≤ maxz then "Mild" else "None",
        rets.length, maxz)) :=
  ⟨by norm_num [pctChangeOpt],
   anomaly_from_prices_zscore [some (1 : ℝ), some 2, some 1, some 2, some 1, some 2] 2.0 3.0
     (by norm_num [pctChangeOpt])⟩

/-- C10: anomaly detection is total over arbitrary already-coerced price
columns: a return is produced exactly for adjacent pairs of present
(numeric) values, so missing values are excluded from the return count;
and when all returns are equal, the epsilon-guarded denominator makes
every z-score zero, so the result is the label `"None"` with
`max_z = 0.0` rather than a division failure. -/
theorem anomaly_from_prices_total (close : List (Option ℝ)) :
    (pctChangeOpt close).length
      = (close.zip close.tail).countP (fun p => p.1.isSome && p.2.isSome) ∧
    (5 ≤ (pctChangeOpt close).length →
      (∀ x ∈ pctChangeOpt close, ∀ y ∈ pctChangeOpt close, x = y) →
      anomaly_from_prices close = ("None", (pctChangeOpt close).length, 0.0)) := by
  refine ⟨pctChangeOpt_length close, fun h5 hconst => ?_⟩
  have hne : pctChangeOpt close ≠ [] := by
    intro hnil
    rw [hnil] at h5
    simp at h5
  obtain ⟨c, l, hcl⟩ := List.exists_cons_of_ne_nil hne
  have hc : ∀ x ∈ pctChangeOpt close, x = c :=
    fun x hx => hconst x hx c (by rw [hcl]; exact List.mem_cons_self c l)
  have hmean : listMean (pctChangeOpt close) = c := listMean_const hne hc
  have hsd : sampleStd (pctChangeOpt close) = 0 := by
    unfold sampleStd
    have hz : ((pctChangeOpt close).map
        (fun x => (x - listMean (pctChangeOpt close)) ^ 2)).sum = 0 := by
      apply List.sum_eq_zero
      intro x hx
      rcases List.mem_map.mp hx with ⟨r, hr, hrx⟩
      rw [← hrx, hc r hr, hmean]
      ring
    rw [hz, zero_div, Real.sqrt_zero]
  have hmax : listMax (((pctChangeOpt close).map
      (fun r => (r - listMean (pctChangeOpt close)) /
        (sampleStd (pctChangeOpt close) + 1e-9))).map (fun x => |x|)) = 0 := by
    apply listMax_zeros
    intro x hx
    rcases List.mem_map.mp hx with ⟨z, hz, hzx⟩
    rcases List.mem_map.mp hz with ⟨r, hr, hrz⟩
    rw [← hzx, ← hrz, hc r hr, hmean, sub_self, zero_div, abs_zero]
  unfold anomaly_from_prices
  rw [if_neg (by omega)]
  simp only [hmax]
  norm_num

theorem anomaly_from_prices_total_witness :
    5 ≤ (pctChangeOpt [some (1 : ℝ), some 1, some 1, some 1, some 1, some 1]).length ∧
    anomaly_from_prices [some (1 : ℝ), some 1, some 1, some 1, some 1, some 1]
      = ("None", (pctChangeOpt [some (1 : ℝ), some 1, some 1, some 1, some 1, some 1]).length, 0.0) :=
  ⟨by norm_num [pctChangeOpt],
   (anomaly_from_prices_total [some (1 : ℝ), some 1, some 1, some 1, some 1, some 1]).2
     (by norm_num [pctChangeOpt])
     (by
       intro x hx y hy
       norm_num [pctChangeOpt] at hx hy
       rw [hx, hy])⟩

/- ------------------------------------------------------------------
Claim theorems: drift forecaster
------------------------------------------------------------------ -/

/-- C3: for a history of at least 2 prices and a positive horizon, the
forecast succeeds with exactly `horizon_days` rows; row `t` (0-based)
carries date `last date + 1 + t` — a contiguous daily sequence starting
the day after the series' last date — and predicted price
`last price * (1 + mean return) ^ (t + 1)`, the mean being the arithmetic
mean of the day-over-day fractional returns. -/
theorem forecast_prices_drift (hist : List (ℤ × ℝ)) (horizon_days : ℤ)
    (hlen : 2 ≤ hist.length) (hpos : 0 < horizon_days) :
    ∃ rows, forecast_prices hist horizon_days = .ok rows ∧
      rows.length = horizon_days.toNat ∧
      ∀ t < horizon_days.toNat,
        rows.getD t (0, 0) =
          ((hist.map Prod.fst).getLastD 0 + 1 + (t : ℤ),
           (hist.map Prod.snd).getLastD 0 *
             (1 + listMean (pctChange (hist.map Prod.snd))) ^ (t + 1)) := by
  have hret : (pctChange (hist.map Prod.snd)).length ≠ 0 := by
    unfold pctChange
    rw [List.length_zipWith, List.length_tail, List.length_map]
    omega
  refine ⟨(List.range horizon_days.toNat).map
      (fun (t : ℕ) => ((hist.map Prod.fst).getLastD 0 + 1 + (t : ℤ),
        (hist.map Prod.snd).getLastD 0 *
          (1 + listMean (pctChange (hist.map Prod.snd))) ^ (t + 1))), ?_, ?_, ?_⟩
  · unfold forecast_prices
    rw [if_neg (by omega), if_neg hret]
  · rw [List.length_map, List.length_range]
  · intro t ht
    rw [List.getD_eq_getElem _ _
      (by rw [List.length_map, List.length_range]; exact ht)]
    rw [List.getElem_map, List.getElem_range]

theorem forecast_prices_drift_witness :
    2 ≤ ([((0 : ℤ), (100 : ℝ)), (1, 110)] : List (ℤ × ℝ)).length ∧
    (0 : ℤ) < 3 ∧
    (∃ rows, forecast_prices [((0 : ℤ), (100 : ℝ)), (1, 110)] 3 = .ok rows ∧
      rows.length = (3 : ℤ).toNat ∧
      ∀ t < (3 : ℤ).toNat,
        rows.getD t (0, 0) =
          (([((0 : ℤ), (100 : ℝ)), (1, 110)].map Prod.fst).getLastD 0 + 1 + (t : ℤ),
           ([((0 : ℤ), (100 : ℝ)), (1, 110)].map Prod.snd).getLastD 0 *
             (1 + listMean (pctChange ([((0 : ℤ), (100 : ℝ)), (1, 110)].map Prod.snd))) ^ (t + 1))) :=
  ⟨by simp, by norm_num,
   forecast_prices_drift [((0 : ℤ), (100 : ℝ)), (1, 110)] 3 (by simp) (by norm_num)⟩

/-- C7: the forecast fails with the invalid-horizon error for every
`horizon_days ≤ 0`; with a positive horizon it fails with the
empty-returns error exactly when the series has fewer than 2 prices; and
with a positive horizon and at least 2 prices it returns a forecast
without error. -/
theorem forecast_prices_errors (hist : List (ℤ × ℝ)) (horizon_days : ℤ) :
    (horizon_days ≤ 0 →
      forecast_prices hist horizon_days = .error "horizon_days must be > 0.") ∧
    (0 < horizon_days → hist.length < 2 →
      forecast_prices hist horizon_days = .error "Return series is empty after cleaning.") ∧
    (0 < horizon_days → 2 ≤ hist.length →
      ∃ rows, forecast_prices hist horizon_days = .ok rows) := by
  have hlenret : (pctChange (hist.map Prod.snd)).length = hist.length - 1 := by
    unfold pctChange
    rw [List.length_zipWith, List.length_tail, List.length_map]
    omega
  refine ⟨fun h => ?_, fun hpos hshort => ?_, fun hpos hlen => ?_⟩
  · unfold forecast_prices
    rw [if_pos h]
  · unfold forecast_prices
    rw [if_neg (by omega), if_pos (by omega)]
  · exact ⟨_, by unfold forecast_prices; rw [if_neg (by omega), if_neg (by omega)]⟩

theorem forecast_prices_errors_witness :
    ((0 : ℤ) ≤ 0 ∧
      forecast_prices [((0 : ℤ), (100 : ℝ))] 0 = .error "horizon_days must be > 0.") ∧
    ((0 : ℤ) < 5 ∧ ([((0 : ℤ), (100 : ℝ))] : List (ℤ × ℝ)).length < 2 ∧
      forecast_prices [((0 : ℤ), (100 : ℝ))] 5 = .error "Return series is empty after cleaning.") :=
  ⟨⟨le_refl 0, (forecast_prices_errors [((0 : ℤ), (100 : ℝ))] 0).1 (le_refl 0)⟩,
   ⟨by norm_num, by simp,
    (forecast_prices_errors [((0 : ℤ), (100 : ℝ))] 5).2.1 (by norm_num) (by simp)⟩⟩

/- ------------------------------------------------------------------
Claim theorems: price series normalizer
------------------------------------------------------------------ -/

theorem dedupDates_subset (seen : List ℤ) :
    ∀ l : List (ℤ × ℝ), ∀ p ∈ dedupDates seen l, p ∈ l
  | [] => by simp [dedupDates]
  | q :: rest => by
    intro p hp
    unfold dedupDates at hp
    by_cases h : q.1 ∈ seen
    · rw [if_pos h] at hp
      exact List.mem_cons_of_mem q (dedupDates_subset seen rest p hp)
    · rw [if_neg h] at hp
      rcases List.mem_cons.mp hp with h1 | h1
      · exact h1 ▸ List.mem_cons_self q rest
      · exact List.mem_cons_of_mem q (dedupDates_subset (q.1 :: seen) rest p h1)

theorem dedupDates_dates_nodup :
    ∀ (l : List (ℤ × ℝ)) (seen : List ℤ),
      ((dedupDates seen l).map Prod.fst).Nodup ∧
        ∀ d ∈ (dedupDates seen l).map Prod.fst, d ∉ seen
  | [] => by simp [dedupDates]
  | q :: rest => by
    intro seen
    unfold dedupDates
    by_cases h : q.1 ∈ seen
    · rw [if_pos h]
      exact dedupDates_dates_nodup rest seen
    · rw [if_neg h]
      obtain ⟨ih1, ih2⟩ := dedupDates_dates_nodup rest (q.1 :: seen)
      refine ⟨List.nodup_cons.mpr ⟨fun hmem => ?_, ih1⟩, ?_⟩
      · exact ih2 q.1 hmem (List.mem_cons_self q.1 seen)
      · intro d hd
        rw [List.map_cons, List.mem_cons] at hd
        rcases hd with h1 | h1
        · exact h1 ▸ h
        · intro hdseen
          exact ih2 d h1 (List.mem_cons_of_mem q.1 hdseen)

/-- C8: the normalizer fails with the schema error exactly when no column
name matches the fixed date candidates or none matches the fixed
close/price candidates; otherwise it coerces, drops rows with a missing
field, removes duplicate dates, sorts ascending (so the output dates are
strictly increasing), and fails with the insufficient-data error exactly
when fewer than 10 rows remain. -/
theorem clean_price_csv_spec (df : Frame) :
    (clean_price_csv df =
        .error "CSV must contain a date column (e.g., Date) and a close/price column (e.g., Close)."
      ↔ date_cols.find? (fun c => df.cols.contains c) = none ∨
        close_cols.find? (fun c => df.cols.contains c) = none) ∧
    (∀ dc cc,
      date_cols.find? (fun c => df.cols.contains c) = some dc →
      close_cols.find? (fun c => df.cols.contains c) = some cc →
      (clean_price_csv df =
          if (cleaned_rows df dc cc).length < 10 then
            .error "CSV has fewer than 10 clean rows after parsing. Add more history."
          else .ok (cleaned_rows df dc cc)) ∧
      ((cleaned_rows df dc cc).map Prod.fst).Pairwise (· < ·) ∧
      (∀ p ∈ cleaned_rows df dc cc, (some p.1, some p.2) ∈ parsed_pairs df dc cc)) := by
  constructor
  · rcases hd : date_cols.find? (fun c => df.cols.contains c) with _ | dc <;>
      rcases hc : close_cols.find? (fun c => df.cols.contains c) with _ | cc <;>
      unfold clean_price_csv <;> rw [hd, hc] <;> simp
    intro hcon
    split at hcon <;> simp at hcon
  · intro dc cc hd hc
    have hperm : List.Perm (cleaned_rows df dc cc) (dedupDates [] (dropped_rows df dc cc)) :=
      List.perm_insertionSort dateLe _
    refine ⟨?_, ?_, ?_⟩
    · unfold clean_price_csv
      rw [hd, hc]
    · have hsorted : List.Pairwise dateLe (cleaned_rows df dc cc) :=
        List.sorted_insertionSort dateLe _
      have hle : ((cleaned_rows df dc cc).map Prod.fst).Pairwise (· ≤ ·) :=
        List.pairwise_map.mpr hsorted
      have hnd : ((cleaned_rows df dc cc).map Prod.fst).Nodup :=
        (hperm.map Prod.fst).nodup_iff.mpr (dedupDates_dates_nodup (dropped_rows df dc cc) []).1
      exact (hle.and hnd).imp (fun h => lt_of_le_of_ne h.1 h.2)
    · intro p hp
      have hdrop : p ∈ dropped_rows df dc cc :=
        dedupDates_subset [] (dropped_rows df dc cc) p (hperm.mem_iff.mp hp)
      unfold dropped_rows at hdrop
      rcases List.mem_filterMap.mp hdrop with ⟨⟨od, ov⟩, hmem, heq⟩
      rcases od with _ | d <;> rcases ov with _ | v <;> simp at heq
      rw [← heq]
      simpa using hmem

theorem clean_price_csv_spec_witness :
    date_cols.find? (fun c => sample_frame.cols.contains c) = some "timestamp" ∧
    close_cols.find? (fun c => sample_frame.cols.contains c) = some "price" ∧
    ((clean_price_csv sample_frame =
        if (cleaned_rows sample_frame "timestamp" "price").length < 10 then
          .error "CSV has fewer than 10 clean rows after parsing. Add more history."
        else .ok (cleaned_rows sample_frame "timestamp" "price")) ∧
      ((cleaned_rows sample_frame "timestamp" "price").map Prod.fst).Pairwise (· < ·) ∧
      (∀ p ∈ cleaned_rows sample_frame "timestamp" "price",
        (some p.1, some p.2) ∈ parsed_pairs sample_frame "timestamp" "price")) ∧
    clean_price_csv sample_frame = .ok (cleaned_rows sample_frame "timestamp" "price") :=
  ⟨rfl, rfl, (clean_price_csv_spec sample_frame).2 "timestamp" "price" rfl rfl, rfl⟩

/- ------------------------------------------------------------------
Claim theorems: rolling sentiment
------------------------------------------------------------------ -/

theorem intercalate_go_length (s : String) :
    ∀ (l : List String) (acc : String), acc.length ≤ (String.intercalate.go acc s l).length
  | [], _ => le_refl _
  | b :: bs, acc => by
    have h := intercalate_go_length s bs (acc ++ s ++ b)
    refine le_trans ?_ h
    simp only [String.length_append]
    omega

theorem intercalate_ne_empty (s a : String) (l : List String) (ha : a ≠ "") :
    String.intercalate s (a :: l) ≠ "" := by
  intro hcon
  have h1 : 0 < a.length := by
    rcases a with ⟨cs⟩
    cases cs with
    | nil => simp at ha
    | cons c cs => simp [String.length]
  have h2 := intercalate_go_length s l a
  rw [String.intercalate] at hcon
  rw [hcon] at h2
  have h3 : ("" : String).length = 0 := rfl
  omega

theorem filterMap_eq_map_of_forall_some {α β : Type _} (l : List α)
    (g : α → Option β) (f : α → β) (h : ∀ a ∈ l, g a = some (f a)) :
    l.filterMap g = l.map f := by
  induction l with
  | nil => rfl
  | cons a t ih =>
    rw [List.filterMap_cons, h a (List.mem_cons_self a t), List.map_cons,
      ih (fun b hb => h b (List.mem_cons_of_mem a hb))]

/-- C9: for every text and positive window, the rolling sentiment is one
record per chunk of the sentence list split into consecutive
non-overlapping groups of `window_sentences` sentences (the last possibly
shorter), the record at ordinal `j` scoring the space-join of chunk `j`;
a text with no sentences yields the empty sequence. -/
theorem rolling_sentiment_spec (sent_tok : String → List String) (polarity : String → ℝ)
    (text : String) (w : ℕ) (hw : 0 < w) :
    rolling_sentiment sent_tok polarity text w =
      (List.range (((split_sentences sent_tok text).length + w - 1) / w)).map
        (fun j => (j,
          polarity (" ".intercalate
            (((split_sentences sent_tok text).drop (j * w)).take w)))) ∧
    (split_sentences sent_tok text = [] →
      rolling_sentiment sent_tok polarity text w = []) := by
  have hmain : rolling_sentiment sent_tok polarity text w =
      (List.range (((split_sentences sent_tok text).length + w - 1) / w)).map
        (fun j => (j,
          polarity (" ".intercalate
            (((split_sentences sent_tok text).drop (j * w)).take w)))) := by
    unfold rolling_sentiment
    rw [List.filterMap_map]
    apply filterMap_eq_map_of_forall_some
    intro j hj
    have hjlt := List.mem_range.mp hj
    have hwle : (j + 1) * w ≤ (split_sentences sent_tok text).length + w - 1 :=
      (Nat.le_div_iff_mul_le hw).mp hjlt
    have hlt : j * w < (split_sentences sent_tok text).length := by
      rw [Nat.succ_mul] at hwle
      generalize j * w = a at hwle ⊢
      omega
    have hdropne : (split_sentences sent_tok text).drop (j * w) ≠ [] := by
      intro hnil
      rw [List.drop_eq_nil_iff] at hnil
      omega
    have htakene : ((split_sentences sent_tok text).drop (j * w)).take w ≠ [] := by
      intro hnil
      rw [List.take_eq_nil_iff] at hnil
      rcases hnil with h1 | h1
      · omega
      · exact hdropne h1
    obtain ⟨a, rest, hcons⟩ := List.exists_cons_of_ne_nil htakene
    have hamem : a ∈ split_sentences sent_tok text := by
      have h1 : a ∈ ((split_sentences sent_tok text).drop (j * w)).take w := by
        rw [hcons]; exact List.mem_cons_self a rest
      exact List.drop_subset _ _ (List.take_subset _ _ h1)
    have hane : a ≠ "" := by
      unfold split_sentences at hamem
      simpa using (List.mem_filter.mp hamem).2
    have hchunk : " ".intercalate (((split_sentences sent_tok text).drop (j * w)).take w) ≠ "" := by
      rw [hcons]
      exact intercalate_ne_empty " " a rest hane
    simp only [Function.comp]
    rw [if_neg hchunk, Nat.mul_div_cancel j hw]
  refine ⟨hmain, fun hnil => ?_⟩
  rw [hmain, hnil]
  have : (w - 1) / w = 0 := Nat.div_eq_of_lt (by omega)
  simp [this]

theorem rolling_sentiment_spec_witness :
    0 < 2 ∧
    (rolling_sentiment (fun _ => ["aa.", "bb.", "cc."]) (fun _ => (0 : ℝ)) "doc" 2 =
      (List.range (((split_sentences (fun _ => ["aa.", "bb.", "cc."]) "doc").length + 2 - 1) / 2)).map
        (fun j => (j,
          (fun _ => (0 : ℝ)) (" ".intercalate
            (((split_sentences (fun _ => ["aa.", "bb.", "cc."]) "doc").drop (j * 2)).take 2)))) ∧
      (split_sentences (fun _ => ["aa.", "bb.", "cc."]) "doc" = [] →
        rolling_sentiment (fun _ => ["aa.", "bb.", "cc."]) (fun _ => (0 : ℝ)) "doc" 2 = [])) :=
  ⟨Nat.zero_lt_two,
   rolling_sentiment_spec (fun _ => ["aa.", "bb.", "cc."]) (fun _ => (0 : ℝ)) "doc" 2
     Nat.zero_lt_two⟩

/- ------------------------------------------------------------------
Claim theorems: relevance ranker
------------------------------------------------------------------ -/

theorem np_argsort_small_ok (sims : List ℝ) :
    argsort_ok sims (np_argsort_small sims) := by
  constructor
  · exact List.perm_insertionSort (arg_rel sims) (List.range sims.length)
  · have hsorted : (np_argsort_small sims).Pairwise (arg_rel sims) :=
      List.sorted_insertionSort (arg_rel sims) (List.range sims.length)
    apply hsorted.imp
    intro a b hab
    rcases hab with h1 | ⟨h1, _⟩
    · exact le_of_lt h1
    · exact le_of_eq h1

/-- C2 (amended): for every question, sentence list and `top_k`, and every
library `argsort` meeting numpy's documented contract on the computed
scores: the empty sentence list yields the empty ranking for any question
and `top_k`; a non-empty sentence list whose fitted corpus yields no token
makes the vectorizer fit fail with sklearn's empty-vocabulary error; and
any ranking that is returned has at most `top_k` results, non-increasing
scores, and only sentences drawn from the input.  The order of equal
scores is implementation-defined (numpy's default quicksort is not
stable), and in particular is not the original sentence order: the
counterexample exhibits the reversal on a small array. -/
theorem answer_question_rank_spec (tok : String → List String)
    (argsort : List ℝ → List ℕ) (question : String) (sentences : List String)
    (top_k : ℕ)
    (hsort : argsort_ok
      (sentences.map (fun s => cosine_sim tok (sentences ++ [question]) question s))
      (argsort
        (sentences.map (fun s => cosine_sim tok (sentences ++ [question]) question s)))) :
    (sentences = [] → answer_question tok argsort question sentences top_k = .ok []) ∧
    (sentences ≠ [] → tfidf_vocab tok (sentences ++ [question]) = [] →
      answer_question tok argsort question sentences top_k =
        .error "empty vocabulary; perhaps the documents only contain stop words") ∧
    (∀ res, answer_question tok argsort question sentences top_k = .ok res →
      res.length ≤ top_k ∧
      (res.map Prod.fst).Pairwise (· ≥ ·) ∧
      ∀ p ∈ res, p.2 ∈ sentences) := by
  refine ⟨fun hnil => ?_, fun hne hvoc => ?_, fun res hres => ?_⟩
  · subst hnil
    rfl
  · unfold answer_question
    rw [if_neg ?_, if_pos hvoc]
    simpa using hne
  · by_cases hemp : sentences.isEmpty
    · unfold answer_question at hres
      rw [if_pos hemp] at hres
      simp only [Except.ok.injEq] at hres
      subst hres
      exact ⟨by simp, by simp, by simp⟩
    · by_cases hvoc : tfidf_vocab tok (sentences ++ [question]) = []
      · unfold answer_question at hres
        rw [if_neg hemp, if_pos hvoc] at hres
        exact absurd hres (by simp)
      · unfold answer_question at hres
        rw [if_neg hemp, if_neg hvoc] at hres
        simp only [Except.ok.injEq] at hres
        subst hres
        obtain ⟨hperm, hasc⟩ := hsort
        refine ⟨?_, ?_, ?_⟩
        · rw [List.length_map]
          exact List.length_take_le top_k _
        · rw [List.map_map]
          apply List.pairwise_map.mpr
          have hdesc : ((argsort (sentences.map
              (fun s => cosine_sim tok (sentences ++ [question]) question s))).reverse).Pairwise
              (fun i j =>
                (sentences.map
                  (fun s => cosine_sim tok (sentences ++ [question]) question s)).getD j 0 ≤
                (sentences.map
                  (fun s => cosine_sim tok (sentences ++ [question]) question s)).getD i 0) :=
            List.pairwise_reverse.mpr hasc
          exact List.Pairwise.sublist (List.take_sublist top_k _) hdesc
        · intro p hp
          rcases List.mem_map.mp hp with ⟨i, hi, hfp⟩
          have h1 : i ∈ (argsort (sentences.map
              (fun s => cosine_sim tok (sentences ++ [question]) question s))).reverse :=
            List.take_subset top_k _ hi
          have h2 : i ∈ argsort (sentences.map
              (fun s => cosine_sim tok (sentences ++ [question]) question s)) :=
            List.mem_reverse.mp h1
          have h3 : i ∈ List.range (sentences.map
              (fun s => cosine_sim tok (sentences ++ [question]) question s)).length :=
            hperm.subset h2
          have hilt : i < sentences.length := by
            simpa using List.mem_range.mp h3
          rw [← hfp]
          simp only
          rw [List.getD_eq_getElem sentences "" hilt]
          exact List.getElem_mem hilt

theorem answer_question_rank_spec_witness :
    argsort_ok
      ((["alpha beta", "alpha gamma"] : List String).map
        (fun s => cosine_sim tokenize (["alpha beta", "alpha gamma"] ++ ["alpha"]) "alpha" s))
      (np_argsort_small
        ((["alpha beta", "alpha gamma"] : List String).map
          (fun s => cosine_sim tokenize (["alpha beta", "alpha gamma"] ++ ["alpha"]) "alpha" s))) ∧
    ((["alpha beta", "alpha gamma"] : List String) = [] →
      answer_question tokenize np_argsort_small "alpha" ["alpha beta", "alpha gamma"] 2 = .ok []) ∧
    (["alpha beta", "alpha gamma"] ≠ ([] : List String) →
      tfidf_vocab tokenize (["alpha beta", "alpha gamma"] ++ ["alpha"]) = [] →
      answer_question tokenize np_argsort_small "alpha" ["alpha beta", "alpha gamma"] 2 =
        .error "empty vocabulary; perhaps the documents only contain stop words") ∧
    (∀ res,
      answer_question tokenize np_argsort_small "alpha" ["alpha beta", "alpha gamma"] 2 = .ok res →
      res.length ≤ 2 ∧
      (res.map Prod.fst).Pairwise (· ≥ ·) ∧
      ∀ p ∈ res, p.2 ∈ ["alpha beta", "alpha gamma"]) :=
  ⟨np_argsort_small_ok _,
   answer_question_rank_spec tokenize np_argsort_small "alpha" ["alpha beta", "alpha gamma"] 2
     (np_argsort_small_ok _)⟩

theorem cosine_sim_tie :
    cosine_sim tokenize ["alpha beta", "alpha gamma", "alpha"] "alpha" "alpha beta"
      = cosine_sim tokenize ["alpha beta", "alpha gamma", "alpha"] "alpha" "alpha gamma" := by
  have hvocab : tfidf_vocab tokenize ["alpha beta", "alpha gamma", "alpha"]
      = ["beta", "gamma", "alpha"] := by decide
  have hdfb : df_count tokenize ["alpha beta", "alpha gamma", "alpha"] "beta" = 1 := by decide
  have hdfg : df_count tokenize ["alpha beta", "alpha gamma", "alpha"] "gamma" = 1 := by decide
  have hdfa : df_count tokenize ["alpha beta", "alpha gamma", "alpha"] "alpha" = 3 := by decide
  have hc1 : (tokenize "alpha").count "beta" = 0 := by decide
  have hc2 : (tokenize "alpha").count "gamma" = 0 := by decide
  have hc3 : (tokenize "alpha").count "alpha" = 1 := by decide
  have hc4 : (tokenize "alpha beta").count "beta" = 1 := by decide
  have hc5 : (tokenize "alpha beta").count "gamma" = 0 := by decide
  have hc6 : (tokenize "alpha beta").count "alpha" = 1 := by decide
  have hc7 : (tokenize "alpha gamma").count "beta" = 0 := by decide
  have hc8 : (tokenize "alpha gamma").count "gamma" = 1 := by decide
  have hc9 : (tokenize "alpha gamma").count "alpha" = 1 := by decide
  unfold cosine_sim tfidf_norm tfidf_weight idf
  rw [hvocab]
  simp only [List.map_cons, List.map_nil, List.sum_cons, List.sum_nil,
    hdfb, hdfg, hdfa, hc1, hc2, hc3, hc4, hc5, hc6, hc7, hc8, hc9,
    List.length_cons, List.length_nil]
  norm_num

/-- C2 (counterexample to the stated tie-breaking): on two distinct
sentences with provably equal similarity to the question, the program —
whose 2-element score array is sorted by numpy's small-array stable
insertion sort and then reversed — returns the later sentence first, so
ties are not broken by original sentence order. -/
theorem answer_question_tie_counterexample :
    (answer_question tokenize np_argsort_small "alpha" ["alpha beta", "alpha gamma"] 2).map
        (fun res => res.map Prod.snd)
      = .ok ["alpha gamma", "alpha beta"] ∧
    cosine_sim tokenize ["alpha beta", "alpha gamma", "alpha"] "alpha" "alpha beta"
      = cosine_sim tokenize ["alpha beta", "alpha gamma", "alpha"] "alpha" "alpha gamma" := by
  refine ⟨?_, cosine_sim_tie⟩
  unfold answer_question np_argsort_small
  rw [if_neg (by decide), if_neg (by decide)]
  simp only [List.cons_append, List.nil_append, List.map_cons, List.map_nil,
    List.length_cons, List.length_nil]
  rw [show List.range 2 = [0, 1] from by decide]
  have h01 : arg_rel
      [cosine_sim tokenize ["alpha beta", "alpha gamma", "alpha"] "alpha" "alpha beta",
       cosine_sim tokenize ["alpha beta", "alpha gamma", "alpha"] "alpha" "alpha gamma"] 0 1 := by
    right
    refine ⟨?_, by omega⟩
    simpa [List.getD] using cosine_sim_tie
  simp only [List.insertionSort, List.orderedInsert]
  rw [if_pos h01]
  simp [List.getD, Except.map]
